import Mathlib

/-!
Verification of the ai-automation-engine core: a shallow embedding of
`automation_engine.py`, `task_manager.py` and the submission path of
`main.py`, together with theorems settling the specification's claims
about the execution engine, the task lifecycle and the scheduler queue.

Capability providers (`browser_controller.py`, `system_controller.py`)
are external collaborators; their boolean success signals are modelled
by an oracle `Oracle : ProviderCall → Bool`.  Exceptions raised while
dispatching an action are modelled with `Except String`; the places in
`_execute_single_action` whose own code can raise (`.lower()` on a
non-string site, unpacking a non-iterable hotkey argument, `time.sleep`
on a non-number or negative argument) are embedded faithfully.
-/

namespace AutoEngine

/-- A parameter value, mirroring the scalar/structured values that occur
in an action's `params` mapping. -/
inductive PValue where
  | str (s : String)
  | int (n : Int)
  | list (xs : List String)
  | null
deriving DecidableEq, Repr

/-- The `params` mapping of an action (`Dict[str, Any]` in the source). -/
def Params := List (String × PValue)
deriving DecidableEq, Repr

/-- `params.get(key, default)` of `automation_engine.py`. -/
def getD (params : Params) (key : String) (default : PValue) : PValue :=
  match (List.find? (fun p => p.1 = key) params) with
  | some p => p.2
  | none => default

/-- Python's `str.lower()` on the ASCII range, character by character
(the engine applies it only to the `site` parameter, compared against
the ASCII literals "youtube" and "google"). -/
def pyLower (s : String) : String := String.mk (s.data.map Char.toLower)

/-- Python truthiness of a parameter value (`if field:` in the
`type_text` branch). -/
def truthy : PValue → Bool
  | .str s => s ≠ ""
  | .int n => n ≠ 0
  | .list xs => xs ≠ []
  | .null => false

/-- One action of a task: `action.get("action")` may be absent, and the
parameter mapping defaults to empty (`action.get("params", \x7b\x7d)`). -/
structure Action where
  action : Option String
  params : Params
deriving DecidableEq, Repr

/-- An invocation of a capability provider (`BrowserController` or
`SystemController` method), identified with its arguments. -/
inductive ProviderCall where
  | startBrowser
  | navigate (url : PValue)
  | searchYoutube (query : PValue)
  | searchGoogle (query : PValue)
  | clickElement (selector : PValue)
  | fillForm (field text : PValue)
  | typeText (text : PValue)
  | closeBrowser
  | openApplication (appName : PValue)
  | pressKey (key : PValue)
  | pressHotkey (keys : List String)
  | screenshot (filename : PValue)
deriving DecidableEq, Repr

/-- Environment oracle: the boolean success signal each provider call
returns (providers catch their own faults and return a boolean). -/
def Oracle := ProviderCall → Bool

/-- `AutomationEngine._execute_single_action`: dispatch one action name
to a provider operation.  Returns the boolean outcome (or the text of an
exception raised during dispatch) together with the list of provider
calls that were made. -/
def execSingleAction (σ : Oracle) (actionType : Option String)
    (params : Params) : Except String Bool × List ProviderCall :=
  if actionType = some "open_browser" then
    (.ok (σ .startBrowser), [.startBrowser])
  else if actionType = some "navigate" then
    let url := getD params "url" (.str "")
    (.ok (σ (.navigate url)), [.navigate url])
  else if actionType = some "search_web" then
    let query := getD params "query" (.str "")
    match getD params "site" (.str "google") with
    | .str site =>
      if pyLower site = "youtube" then
        (.ok (σ (.searchYoutube query)), [.searchYoutube query])
      else
        (.ok (σ (.searchGoogle query)), [.searchGoogle query])
    | _ => (.error "AttributeError: object has no attribute lower", [])
  else if actionType = some "click" then
    let selector := getD params "selector" (.str "")
    if selector = .str "first_video" then
      (.ok true, [])
    else
      (.ok (σ (.clickElement selector)), [.clickElement selector])
  else if actionType = some "type_text" then
    let field := getD params "field" (.str "")
    let text := getD params "text" (.str "")
    if truthy field then
      (.ok (σ (.fillForm field text)), [.fillForm field text])
    else
      (.ok (σ (.typeText text)), [.typeText text])
  else if actionType = some "close_browser" then
    (.ok true, [.closeBrowser])
  else if actionType = some "open_app" then
    let appName := getD params "app_name" (.str "")
    (.ok (σ (.openApplication appName)), [.openApplication appName])
  else if actionType = some "press_key" then
    let key := getD params "key" (.str "")
    (.ok (σ (.pressKey key)), [.pressKey key])
  else if actionType = some "hotkey" then
    match getD params "keys" (.list []) with
    | .list ks => (.ok (σ (.pressHotkey ks)), [.pressHotkey ks])
    | .str s =>
      let ks := s.toList.map Char.toString
      (.ok (σ (.pressHotkey ks)), [.pressHotkey ks])
    | _ => (.error "TypeError: argument after must be an iterable", [])
  else if actionType = some "wait" then
    match getD params "seconds" (.int 1) with
    | .int n =>
      if n < 0 then (.error "ValueError: sleep length must be non-negative", [])
      else (.ok true, [])
    | _ => (.error "TypeError: an integer is required", [])
  else if actionType = some "screenshot" then
    let filename := getD params "filename" (.str "screenshot.png")
    (.ok (σ (.screenshot filename)), [.screenshot filename])
  else
    (.ok false, [])

/-- One entry of the engine's step log. -/
structure LogEntry where
  step : Nat
  action : Option String
  params : Params
  status : String
  error : Option String
deriving DecidableEq, Repr

/-- The aggregated `results` dictionary returned by `execute_actions`. -/
structure ExecResults where
  success : Bool
  total_actions : Nat
  completed : Nat
  failed : Nat
  logs : List LogEntry
deriving DecidableEq, Repr

/-- The status string the loop records for a dispatch outcome. -/
def stepStatus : Except String Bool → String
  | .ok true => "success"
  | .ok false => "failed"
  | .error _ => "error"

/-- The error text the loop records for a dispatch outcome: only an
exception leaves one. -/
def stepError : Except String Bool → Option String
  | .ok _ => none
  | .error e => some e

/-- The log entry produced for the action at (0-based) index `idx`,
determined by the dispatch outcome, as the loop body of
`execute_actions` builds it. -/
def stepEntry (σ : Oracle) (idx : Nat) (a : Action) : LogEntry :=
  ⟨idx + 1, a.action, a.params,
   stepStatus (execSingleAction σ a.action a.params).1,
   stepError (execSingleAction σ a.action a.params).1⟩

/-- The loop of `execute_actions`: accumulates the `results` dictionary
over the remaining actions, `idx` being the 0-based index of the next
one.  In the exception branch the source increments `failed` and
appends the error entry but does not clear `success`. -/
def execLoop (σ : Oracle) : Nat → List Action → ExecResults → ExecResults
  | _, [], r => r
  | idx, a :: rest, r =>
    let r2 :=
      match (execSingleAction σ a.action a.params).1 with
      | .ok true =>
        { r with completed := r.completed + 1,
                 logs := r.logs ++ [⟨idx + 1, a.action, a.params, "success", none⟩] }
      | .ok false =>
        { r with failed := r.failed + 1, success := false,
                 logs := r.logs ++ [⟨idx + 1, a.action, a.params, "failed", none⟩] }
      | .error e =>
        { r with failed := r.failed + 1,
                 logs := r.logs ++ [⟨idx + 1, a.action, a.params, "error", some e⟩] }
    execLoop σ (idx + 1) rest r2

/-- `AutomationEngine.execute_actions`: execute a list of actions and
return the aggregated results. -/
def execute_actions (σ : Oracle) (actions : List Action) : ExecResults :=
  execLoop σ 0 actions ⟨true, actions.length, 0, 0, []⟩

/-- Task lifecycle states (`TaskStatus` enum of `task_manager.py`). -/
inductive TaskStatus where
  | pending
  | running
  | completed
  | failed
  | cancelled
deriving DecidableEq, Repr

/-- A task (`Task.__init__`): identifier, source command, action list,
lifecycle status, timestamps, result and error.  Time is modelled by a
monotone counter; identifiers by consecutive naturals (the source uses
fresh UUIDs, of which only freshness matters). -/
structure Task where
  id : Nat
  command : String
  actions : List Action
  status : TaskStatus
  created_at : Nat
  started_at : Option Nat
  completed_at : Option Nat
  result : Option ExecResults
  error : Option String
deriving DecidableEq, Repr

/-- A freshly constructed task: status PENDING, timestamps and result
unset (`Task.__init__`). -/
def newTask (id : Nat) (command : String) (actions : List Action)
    (now : Nat) : Task :=
  ⟨id, command, actions, .pending, now, none, none, none, none⟩

/-- `TaskManager.create_task`: construct a task and register it,
unconditionally.  The registry is the insertion-ordered list of tasks. -/
def create_task (tasks : List Task) (id : Nat) (command : String)
    (actions : List Action) (now : Nat) : List Task :=
  tasks ++ [newTask id command actions now]

/-- The per-task body of `TaskManager.process_queue` (lines 83-95):
mark the task RUNNING with `started_at`, invoke the engine — whose
observed outcome is either a results dictionary or a raised fault —
then attach the result and terminal status, and set `completed_at`. -/
def processTask (t : Task) (startTime endTime : Nat)
    (engineResult : Except String ExecResults) : Task :=
  let t1 := { t with status := TaskStatus.running,
                     started_at := some startTime }
  let t2 :=
    match engineResult with
    | .ok r =>
      { t1 with result := some r,
                status := if r.success then TaskStatus.completed
                          else TaskStatus.failed }
    | .error e =>
      { t1 with error := some e, status := TaskStatus.failed }
  { t2 with completed_at := some endTime }

/-- The whole single-process system: the registry (insertion order, as a
Python dict preserves it), the FIFO queue of task ids, the id and clock
counters, and two history variables recording the order in which tasks
were ever enqueued and ever dequeued. -/
structure SystemState where
  tasks : List Task
  queue : List Nat
  nextId : Nat
  clock : Nat
  enqueued : List Nat
  processed : List Nat

/-- The state at process start: empty registry, empty queue. -/
def initState : SystemState := ⟨[], [], 0, 0, [], []⟩

/-- The submission path of `main.py` `execute_command` after parsing:
an empty action sequence is rejected before any task is created;
otherwise a task is created, registered and enqueued at the tail. -/
def submitCommand (s : SystemState) (command : String)
    (actions : List Action) : SystemState :=
  if actions.isEmpty then s
  else
    { s with
      tasks := s.tasks ++ [newTask s.nextId command actions s.clock],
      queue := s.queue ++ [s.nextId],
      enqueued := s.enqueued ++ [s.nextId],
      nextId := s.nextId + 1,
      clock := s.clock + 1 }

/-- The observed outcome of the engine call at line 88 of
`task_manager.py` for the dequeued task: either the aggregated results
of a normal run, or — when `fault` injects an engine-fatal fault — the
text of the exception the call raised. -/
def workerResult (s : SystemState) (σ : Oracle) (fault : Option String)
    (id : Nat) : Except String ExecResults :=
  match fault with
  | some e => .error e
  | none =>
    .ok (execute_actions σ
      ((s.tasks.find? (fun t => t.id = id)).map Task.actions |>.getD []))

/-- One iteration of the worker loop of `TaskManager.process_queue`:
wait for the head of the queue (a timeout leaves the state unchanged),
then process that single task with `processTask`. -/
def processOne (s : SystemState) (σ : Oracle) (fault : Option String) :
    SystemState :=
  match s.queue with
  | [] => s
  | id :: rest =>
    { s with
      tasks := s.tasks.map (fun t =>
        if t.id = id then
          processTask t s.clock (s.clock + 1) (workerResult s σ fault id)
        else t),
      queue := rest,
      processed := s.processed ++ [id],
      clock := s.clock + 2 }

/-- The operations the service layer performs on the core: a submission
from a caller, or one iteration of the background worker. -/
inductive Op where
  | submit (command : String) (actions : List Action)
  | worker (σ : Oracle) (fault : Option String)

/-- Apply one operation to the system state. -/
def applyOp (s : SystemState) : Op → SystemState
  | .submit c as => submitCommand s c as
  | .worker σ f => processOne s σ f

/-- Run a sequence of operations from the initial state. -/
def runOps (ops : List Op) : SystemState := ops.foldl applyOp initState

/-- A status from which no further transition happens. -/
def isTerminal : TaskStatus → Bool
  | .completed => true
  | .failed => true
  | .cancelled => true
  | _ => false

/-- Timestamp ordering of a task: `created_at ≤ started_at ≤
completed_at` whenever the optional timestamps are set. -/
def tsOrdered (t : Task) : Prop :=
  (∀ a, t.started_at = some a → t.created_at ≤ a) ∧
  (∀ b, t.completed_at = some b → t.created_at ≤ b) ∧
  (∀ a b, t.started_at = some a → t.completed_at = some b → a ≤ b)

/-- The fixed vocabulary of the engine's dispatch table
(the `elif` chain of `_execute_single_action`). -/
def knownActions : List String :=
  ["open_browser", "navigate", "search_web", "click", "type_text",
   "close_browser", "open_app", "press_key", "hotkey", "wait", "screenshot"]

/-- The step log of a run as a standalone function of the input:
entry for index `idx`, then the entries for the rest. -/
def stepEntries (σ : Oracle) : Nat → List Action → List LogEntry
  | _, [] => []
  | idx, a :: rest => stepEntry σ idx a :: stepEntries σ (idx + 1) rest

/-- Well-formedness of a reachable system state: ids are fresh and
unique, queued ids are unique, bounded and refer to pending tasks,
creation times precede the clock, timestamps are ordered, and the
dequeue history followed by the queue is exactly the enqueue history. -/
structure WF (s : SystemState) : Prop where
  idBound : ∀ t ∈ s.tasks, t.id < s.nextId
  idNodup : (s.tasks.map Task.id).Nodup
  queueBound : ∀ i ∈ s.queue, i < s.nextId
  queueNodup : s.queue.Nodup
  queuePending : ∀ i ∈ s.queue, ∀ t ∈ s.tasks, t.id = i →
    t.status = TaskStatus.pending
  clockBound : ∀ t ∈ s.tasks, t.created_at < s.clock
  tsOk : ∀ t ∈ s.tasks, tsOrdered t
  fifo : s.processed ++ s.queue = s.enqueued

/-- An environment in which every provider call reports success. -/
def wOracle : Oracle := fun _ => true

/-- A `wait` action whose `seconds` parameter is a string: `time.sleep`
raises on it, exercising the engine's exception branch. -/
def waitBad : Action := ⟨some "wait", [("seconds", PValue.str "x")]⟩

/-- A two-action input: a `wait` whose dispatch raises, then an
`open_browser`. -/
def wActs : List Action := [waitBad, ⟨some "open_browser", []⟩]

/-- A single submission of a task holding one unknown action. -/
def wOps : List Op := [Op.submit "do teleport" [⟨some "teleport", []⟩]]

/-- One worker iteration in the all-success environment. -/
def wOp : Op := Op.worker wOracle none

/-- The registered task after the submission of `wOps`. -/
def wTaskBefore : Task := ((runOps wOps).tasks).getD 0 (newTask 0 "" [] 0)

/-- The same task after the worker has processed it. -/
def wTaskAfter : Task :=
  ((runOps (wOps ++ [wOp])).tasks).getD 0 (newTask 0 "" [] 0)

/-- A registered task holding a single unknown action. -/
def tpTask : Task := newTask 0 "do teleport" [⟨some "teleport", []⟩] 0

/-! Structural lemmas about the engine loop. -/

theorem execLoop_logs (σ : Oracle) (as : List Action) :
    ∀ (idx : Nat) (r : ExecResults),
    (execLoop σ idx as r).logs = r.logs ++ stepEntries σ idx as := by
  induction as with
  | nil => intro idx r; simp [execLoop, stepEntries]
  | cons a rest ih =>
    intro idx r
    rcases hd : (execSingleAction σ a.action a.params).1 with e | b
    · simp [execLoop, stepEntries, stepEntry, stepStatus, stepError, hd, ih]
    · cases b <;>
        simp [execLoop, stepEntries, stepEntry, stepStatus, stepError, hd, ih]

theorem execLoop_counts (σ : Oracle) (as : List Action) :
    ∀ (idx : Nat) (r : ExecResults),
    (execLoop σ idx as r).completed + (execLoop σ idx as r).failed
      = r.completed + r.failed + as.length := by
  induction as with
  | nil => intro idx r; simp [execLoop]
  | cons a rest ih =>
    intro idx r
    rcases hd : (execSingleAction σ a.action a.params).1 with e | b
    · simp only [execLoop, hd]
      rw [ih]
      simp
      omega
    · cases b <;>
        (simp only [execLoop, hd]
         rw [ih]
         simp
         omega)

theorem execLoop_total (σ : Oracle) (as : List Action) :
    ∀ (idx : Nat) (r : ExecResults),
    (execLoop σ idx as r).total_actions = r.total_actions := by
  induction as with
  | nil => intro idx r; simp [execLoop]
  | cons a rest ih =>
    intro idx r
    rcases hd : (execSingleAction σ a.action a.params).1 with e | b
    · simp only [execLoop, hd]
      rw [ih]
    · cases b <;>
        (simp only [execLoop, hd]
         rw [ih])

theorem stepEntries_length (σ : Oracle) (as : List Action) :
    ∀ (idx : Nat), (stepEntries σ idx as).length = as.length := by
  induction as with
  | nil => intro idx; rfl
  | cons a rest ih => intro idx; simp [stepEntries, ih]

theorem stepEntries_getElem (σ : Oracle) (as : List Action) :
    ∀ (idx i : Nat) (h : i < as.length)
      (h2 : i < (stepEntries σ idx as).length),
    (stepEntries σ idx as)[i] = stepEntry σ (idx + i) (as[i]) := by
  induction as with
  | nil => intro idx i h h2; exact absurd h (Nat.not_lt_zero i)
  | cons a rest ih =>
    intro idx i h h2
    cases i with
    | zero => simp [stepEntries]
    | succ j =>
      have hj : j < rest.length := by simpa using h
      have hj2 : j < (stepEntries σ (idx + 1) rest).length := by
        rw [stepEntries_length]
        exact hj
      simp only [stepEntries, List.getElem_cons_succ]
      rw [ih (idx + 1) j hj hj2]
      congr 1
      omega

theorem execute_actions_logs (σ : Oracle) (as : List Action) :
    (execute_actions σ as).logs = stepEntries σ 0 as := by
  simp [execute_actions, execLoop_logs]

theorem execute_actions_logs_length (σ : Oracle) (as : List Action) :
    (execute_actions σ as).logs.length = as.length := by
  rw [execute_actions_logs, stepEntries_length]

theorem execute_actions_logs_getElem (σ : Oracle) (as : List Action)
    (i : Nat) (h : i < as.length)
    (h2 : i < (execute_actions σ as).logs.length) :
    (execute_actions σ as).logs[i] = stepEntry σ i (as[i]) := by
  have h3 : i < (stepEntries σ 0 as).length := by
    rw [stepEntries_length]
    exact h
  have := stepEntries_getElem σ as 0 i h h3
  simp only [Nat.zero_add] at this
  simp only [execute_actions_logs]
  exact this

/-! Claims about the execution engine. -/

/-- C9: for every list of actions processed without the engine itself
raising, the returned results satisfy `completed + failed =
total_actions`, and `total_actions` equals the length of the input
list — every step is counted in exactly one of the two tallies,
including steps whose dispatch raised an exception. -/
theorem counts_partition_total (σ : Oracle) (actions : List Action) :
    (execute_actions σ actions).completed
      + (execute_actions σ actions).failed
      = (execute_actions σ actions).total_actions ∧
    (execute_actions σ actions).total_actions = actions.length := by
  have h1 := execLoop_counts σ actions 0 ⟨true, actions.length, 0, 0, []⟩
  have h2 := execLoop_total σ actions 0 ⟨true, actions.length, 0, 0, []⟩
  constructor
  · simp only [execute_actions]
    rw [h1, h2]
    simp
  · simp only [execute_actions]
    rw [h2]

/-- C4: for every execution of a list of N actions, the returned step
log has exactly N entries, and entry i records action i (its 1-based
step index, its name and its parameters); per-action failures do not
shorten or reorder the log. -/
theorem step_log_length_and_order (σ : Oracle) (actions : List Action) :
    (execute_actions σ actions).logs.length = actions.length ∧
    ∀ (i : Nat) (h1 : i < actions.length)
      (h2 : i < (execute_actions σ actions).logs.length),
      ((execute_actions σ actions).logs[i]).step = i + 1 ∧
      ((execute_actions σ actions).logs[i]).action = (actions[i]).action ∧
      ((execute_actions σ actions).logs[i]).params = (actions[i]).params := by
  refine ⟨execute_actions_logs_length σ actions, ?_⟩
  intro i h1 h2
  rw [execute_actions_logs_getElem σ actions i h1 h2]
  exact ⟨rfl, rfl, rfl⟩

/-- Witness for C4 on a concrete two-action input. -/
theorem step_log_length_and_order_witness :
    ((execute_actions wOracle wActs).logs.get ⟨0, by decide⟩).step = 0 + 1 :=
  ((step_log_length_and_order wOracle wActs).2 0 (by decide) (by decide)).1

/-- C2: an exception thrown while dispatching one action is caught
inside the loop and converted into a per-step entry of status "error"
carrying the exception text, and the log still covers every action of
the input (execution proceeded; the caller receives a normal results
value, which in this embedding is immediate since `execute_actions` is
a total function). -/
theorem dispatch_exception_contained (σ : Oracle) (actions : List Action)
    (i : Nat) (e : String) (h1 : i < actions.length)
    (h2 : i < (execute_actions σ actions).logs.length)
    (he : (execSingleAction σ (actions[i]).action (actions[i]).params).1
      = .error e) :
    ((execute_actions σ actions).logs[i]).status = "error" ∧
    ((execute_actions σ actions).logs[i]).error = some e ∧
    (execute_actions σ actions).logs.length = actions.length := by
  rw [execute_actions_logs_getElem σ actions i h1 h2]
  refine ⟨?_, ?_, execute_actions_logs_length σ actions⟩
  · simp [stepEntry, stepStatus, he]
  · simp [stepEntry, stepError, he]

/-- Witness for C2: a `wait` whose `seconds` parameter is a string
makes `time.sleep` raise; the step is recorded and the log is full
length. -/
theorem dispatch_exception_contained_witness :
    (execute_actions wOracle wActs).logs.length = wActs.length :=
  (dispatch_exception_contained wOracle wActs 0
    "TypeError: an integer is required" (by decide) (by decide) rfl).2.2

/-- C1 fails on the code: a step whose dispatch raises is tallied in
`failed` and logged with status "error", yet `success` stays `true`
because the exception branch of `execute_actions` never clears it —
so `success = (failed == 0)` and "false if any step is error" are both
violated. -/
theorem success_flag_ignores_error_steps :
    (execute_actions wOracle [waitBad]).success = true ∧
    (execute_actions wOracle [waitBad]).failed = 1 ∧
    (execute_actions wOracle [waitBad]).logs.map LogEntry.status
      = ["error"] := by
  decide

/-- C10: a `click` action whose `selector` parameter is the string
"first_video" is reported successful with no provider invocation. -/
theorem click_first_video_bypass (σ : Oracle) (params : Params)
    (h : getD params "selector" (.str "") = .str "first_video") :
    execSingleAction σ (some "click") params = (.ok true, []) := by
  simp [execSingleAction, h]

/-- Witness for C10 at a concrete parameter mapping. -/
theorem click_first_video_bypass_witness :
    execSingleAction wOracle (some "click")
      [("selector", PValue.str "first_video")] = (.ok true, []) :=
  click_first_video_bypass wOracle [("selector", PValue.str "first_video")]
    (by decide)

/-- C5: an action whose name is not in the dispatch table yields
`False` with no provider invocation; a task consisting only of such an
action gets a single "failed" step, an unsuccessful result, and ends
FAILED when the worker processes it. -/
theorem unknown_action_fails_without_provider (σ : Oracle) (name : String)
    (params : Params) (startTime endTime : Nat) (t : Task)
    (hn : name ∉ knownActions)
    (ht : t.actions = [⟨some name, params⟩]) :
    execSingleAction σ (some name) params = (.ok false, []) ∧
    (execute_actions σ [⟨some name, params⟩]).logs.map LogEntry.status
      = ["failed"] ∧
    (execute_actions σ [⟨some name, params⟩]).success = false ∧
    (processTask t startTime endTime
      (.ok (execute_actions σ t.actions))).status = TaskStatus.failed := by
  have hs : execSingleAction σ (some name) params = (.ok false, []) := by
    simp only [knownActions, List.mem_cons, List.not_mem_nil, or_false,
      not_or] at hn
    obtain ⟨h1, h2, h3, h4, h5, h6, h7, h8, h9, h10, h11⟩ := hn
    simp [execSingleAction, h1, h2, h3, h4, h5, h6, h7, h8, h9, h10, h11]
  have hr : (execute_actions σ [(⟨some name, params⟩ : Action)]).success
      = false := by
    simp [execute_actions, execLoop, hs]
  refine ⟨hs, ?_, hr, ?_⟩
  · simp [execute_actions, execLoop, hs]
  · rw [ht]
    simp [processTask, hr]

/-- Witness for C5 at the spec's scenario C: action name "teleport". -/
theorem unknown_action_fails_without_provider_witness :
    execSingleAction wOracle (some "teleport") [] = (Except.ok false, []) :=
  (unknown_action_fails_without_provider wOracle "teleport" [] 1 2 tpTask
    (by decide) (by decide)).1

/-! Claims about the task lifecycle and registry. -/

/-- C6: when invoking the engine itself raises while the worker
processes a task, the task ends FAILED with `error` set to the fault
text, `started_at` and `completed_at` set, and `result` left null. -/
theorem engine_fault_marks_task_failed (t : Task) (startTime endTime : Nat)
    (e : String) (h : t.result = none) :
    (processTask t startTime endTime (.error e)).status = TaskStatus.failed ∧
    (processTask t startTime endTime (.error e)).error = some e ∧
    (processTask t startTime endTime (.error e)).started_at
      = some startTime ∧
    (processTask t startTime endTime (.error e)).completed_at
      = some endTime ∧
    (processTask t startTime endTime (.error e)).result = none := by
  simp [processTask, h]

/-- Witness for C6 on a concrete fresh task and fault. -/
theorem engine_fault_marks_task_failed_witness :
    (processTask tpTask 1 2 (.error "boom")).status = TaskStatus.failed ∧
    (processTask tpTask 1 2 (.error "boom")).error = some "boom" ∧
    (processTask tpTask 1 2 (.error "boom")).started_at = some 1 ∧
    (processTask tpTask 1 2 (.error "boom")).completed_at = some 2 ∧
    (processTask tpTask 1 2 (.error "boom")).result = none :=
  engine_fault_marks_task_failed tpTask 1 2 "boom" (by decide)

/-- C3 fails on the code as stated: `TaskManager.create_task` performs
no validation, so creating with an empty action sequence does change
the registry — a task with empty `actions` is stored. -/
theorem create_task_empty_actions_registers :
    create_task [] 0 "noop" [] 0 ≠ [] ∧
    (create_task [] 0 "noop" [] 0).length = 1 ∧
    ∀ t ∈ create_task [] 0 "noop" [] 0, t.actions = [] := by
  decide

/-- C3 amended: the submission path rejects an empty action sequence
before any task is created, leaving the whole system state — registry
and queue — unchanged. -/
theorem submit_empty_actions_noop (s : SystemState) (command : String) :
    applyOp s (Op.submit command []) = s := by
  simp [applyOp, submitCommand]

/-! Field lemmas for `processTask` and the reachable-state invariant. -/

theorem processTask_id (t : Task) (a b : Nat)
    (r : Except String ExecResults) : (processTask t a b r).id = t.id := by
  cases r <;> simp [processTask]

theorem processTask_created (t : Task) (a b : Nat)
    (r : Except String ExecResults) :
    (processTask t a b r).created_at = t.created_at := by
  cases r <;> simp [processTask]

theorem processTask_started (t : Task) (a b : Nat)
    (r : Except String ExecResults) :
    (processTask t a b r).started_at = some a := by
  cases r <;> simp [processTask]

theorem processTask_completed (t : Task) (a b : Nat)
    (r : Except String ExecResults) :
    (processTask t a b r).completed_at = some b := by
  cases r <;> simp [processTask]

theorem wf_init : WF initState := by
  constructor <;> simp [initState]

theorem wf_submit (s : SystemState) (c : String) (as : List Action)
    (h : WF s) : WF (submitCommand s c as) := by
  by_cases hemp : as.isEmpty
  · simpa [submitCommand, hemp] using h
  · rw [submitCommand, if_neg hemp]
    constructor
    · intro t ht
      rcases List.mem_append.1 ht with h1 | h1
      · exact Nat.lt_succ_of_lt (h.idBound t h1)
      · have he : t = newTask s.nextId c as s.clock := by simpa using h1
        subst he
        exact Nat.lt_succ_self _
    · rw [List.map_append]
      refine List.Nodup.append h.idNodup (by simp) ?_
      intro x hx hx2
      have hxe : x = s.nextId := by simpa [newTask] using hx2
      subst hxe
      obtain ⟨t, ht, hid⟩ := List.mem_map.1 hx
      exact absurd (hid ▸ h.idBound t ht) (Nat.lt_irrefl _)
    · intro i hi
      rcases List.mem_append.1 hi with h1 | h1
      · exact Nat.lt_succ_of_lt (h.queueBound i h1)
      · have he : i = s.nextId := by simpa using h1
        subst he
        exact Nat.lt_succ_self _
    · refine List.Nodup.append h.queueNodup (by simp) ?_
      intro x hx hx2
      have hxe : x = s.nextId := by simpa using hx2
      subst hxe
      exact absurd (h.queueBound _ hx) (Nat.lt_irrefl _)
    · intro i hi t ht hid
      rcases List.mem_append.1 hi with hq | hq
      · rcases List.mem_append.1 ht with h1 | h1
        · exact h.queuePending i hq t h1 hid
        · have he : t = newTask s.nextId c as s.clock := by simpa using h1
          subst he
          have : s.nextId = i := by simpa [newTask] using hid
          subst this
          exact absurd (h.queueBound _ hq) (Nat.lt_irrefl _)
      · have hiq : i = s.nextId := by simpa using hq
        subst hiq
        rcases List.mem_append.1 ht with h1 | h1
        · exact absurd (hid ▸ h.idBound t h1) (Nat.lt_irrefl _)
        · have he : t = newTask s.nextId c as s.clock := by simpa using h1
          subst he
          rfl
    · intro t ht
      rcases List.mem_append.1 ht with h1 | h1
      · exact Nat.lt_succ_of_lt (h.clockBound t h1)
      · have he : t = newTask s.nextId c as s.clock := by simpa using h1
        subst he
        exact Nat.lt_succ_self _
    · intro t ht
      rcases List.mem_append.1 ht with h1 | h1
      · exact h.tsOk t h1
      · have he : t = newTask s.nextId c as s.clock := by simpa using h1
        subst he
        refine ⟨?_, ?_, ?_⟩
        · intro a ha
          simp [newTask] at ha
        · intro b hb
          simp [newTask] at hb
        · intro a b ha hb
          simp [newTask] at ha
    · show s.processed ++ (s.queue ++ [s.nextId]) = s.enqueued ++ [s.nextId]
      rw [← List.append_assoc, h.fifo]

theorem wf_worker (s : SystemState) (σ : Oracle) (f : Option String)
    (h : WF s) : WF (processOne s σ f) := by
  rcases hq : s.queue with _ | ⟨qid, rest⟩
  · simpa [processOne, hq] using h
  · have hnodup : (qid :: rest).Nodup := by rw [← hq]; exact h.queueNodup
    have hnotin : qid ∉ rest := (List.nodup_cons.1 hnodup).1
    have hqid : qid ∈ s.queue := by
      rw [hq]
      exact List.mem_cons_self _ _
    have hrest : ∀ i ∈ rest, i ∈ s.queue := by
      intro i hi
      rw [hq]
      exact List.mem_cons_of_mem _ hi
    simp only [processOne, hq]
    constructor
    · intro tu htu
      obtain ⟨t, ht, rfl⟩ := List.mem_map.1 htu
      by_cases hid : t.id = qid
      · rw [if_pos hid, processTask_id]
        exact h.idBound t ht
      · rw [if_neg hid]
        exact h.idBound t ht
    · rw [List.map_map]
      have heq : s.tasks.map (Task.id ∘ fun t =>
          if t.id = qid then
            processTask t s.clock (s.clock + 1) (workerResult s σ f qid)
          else t) = s.tasks.map Task.id := by
        apply List.map_congr_left
        intro t ht
        by_cases hid : t.id = qid
        · simp [Function.comp, hid, processTask_id]
        · simp [Function.comp, hid]
      rw [heq]
      exact h.idNodup
    · intro i hi
      exact h.queueBound i (hrest i hi)
    · exact (List.nodup_cons.1 hnodup).2
    · intro i hi tu htu hidu
      obtain ⟨t, ht, rfl⟩ := List.mem_map.1 htu
      by_cases hid : t.id = qid
      · exfalso
        rw [if_pos hid, processTask_id, hid] at hidu
        exact hnotin (hidu ▸ hi)
      · rw [if_neg hid] at hidu ⊢
        exact h.queuePending i (hrest i hi) t ht hidu
    · intro tu htu
      obtain ⟨t, ht, rfl⟩ := List.mem_map.1 htu
      have hc := h.clockBound t ht
      show (if t.id = qid then
          processTask t s.clock (s.clock + 1) (workerResult s σ f qid)
        else t).created_at < s.clock + 2
      by_cases hid : t.id = qid
      · rw [if_pos hid, processTask_created]
        omega
      · rw [if_neg hid]
        omega
    · intro tu htu
      obtain ⟨t, ht, rfl⟩ := List.mem_map.1 htu
      by_cases hid : t.id = qid
      · rw [if_pos hid]
        have hc := h.clockBound t ht
        refine ⟨?_, ?_, ?_⟩
        · intro a ha
          rw [processTask_started] at ha
          rw [processTask_created]
          cases ha
          omega
        · intro b hb
          rw [processTask_completed] at hb
          rw [processTask_created]
          cases hb
          omega
        · intro a b ha hb
          rw [processTask_started] at ha
          rw [processTask_completed] at hb
          cases ha
          cases hb
          omega
      · rw [if_neg hid]
        exact h.tsOk t ht
    · show (s.processed ++ [qid]) ++ rest = s.enqueued
      rw [List.append_assoc, List.singleton_append, ← hq]
      exact h.fifo

theorem wf_step (s : SystemState) (op : Op) (h : WF s) :
    WF (applyOp s op) := by
  cases op with
  | submit c as => exact wf_submit s c as h
  | worker σ f => exact wf_worker s σ f h

theorem wf_run_aux : ∀ (ops : List Op) (s : SystemState),
    WF s → WF (ops.foldl applyOp s)
  | [], _, h => h
  | op :: ops, s, h => wf_run_aux ops (applyOp s op) (wf_step s op h)

theorem wf_runOps (ops : List Op) : WF (runOps ops) :=
  wf_run_aux ops initState wf_init

theorem task_unique (s : SystemState) (h : WF s) (t u : Task)
    (ht : t ∈ s.tasks) (hu : u ∈ s.tasks) (hid : t.id = u.id) : t = u :=
  List.inj_on_of_nodup_map h.idNodup ht hu hid

theorem terminal_preserved (s : SystemState) (op : Op) (h : WF s)
    (t u : Task) (ht : t ∈ s.tasks) (hu : u ∈ (applyOp s op).tasks)
    (hid : u.id = t.id) (hterm : isTerminal t.status = true) :
    u.status = t.status := by
  cases op with
  | submit c as =>
    by_cases hemp : as.isEmpty
    · have hu2 : u ∈ s.tasks := by
        simpa [applyOp, submitCommand, hemp] using hu
      rw [task_unique s h u t hu2 ht hid]
    · have hu2 : u ∈ s.tasks ++ [newTask s.nextId c as s.clock] := by
        simpa [applyOp, submitCommand, hemp] using hu
      rcases List.mem_append.1 hu2 with h1 | h1
      · rw [task_unique s h u t h1 ht hid]
      · exfalso
        have he : u = newTask s.nextId c as s.clock := by simpa using h1
        subst he
        have : s.nextId = t.id := hid
        exact absurd (this ▸ h.idBound t ht) (Nat.lt_irrefl _)
  | worker σ f =>
    rcases hq : s.queue with _ | ⟨qid, rest⟩
    · have hu2 : u ∈ s.tasks := by simpa [applyOp, processOne, hq] using hu
      rw [task_unique s h u t hu2 ht hid]
    · have hu2 : u ∈ s.tasks.map (fun v =>
          if v.id = qid then
            processTask v s.clock (s.clock + 1) (workerResult s σ f qid)
          else v) := by
        simpa [applyOp, processOne, hq] using hu
      obtain ⟨v, hv, rfl⟩ := List.mem_map.1 hu2
      by_cases hvid : v.id = qid
      · exfalso
        have hvp : v.status = TaskStatus.pending :=
          h.queuePending qid (by rw [hq]; exact List.mem_cons_self _ _)
            v hv hvid
        rw [if_pos hvid, processTask_id] at hid
        have htv : t = v := task_unique s h t v ht hv hid.symm
        rw [htv, hvp] at hterm
        simp [isTerminal] at hterm
      · rw [if_neg hvid] at hid ⊢
        rw [task_unique s h v t hv ht hid]

/-- C7: along any operation sequence of the core, a task that has
reached a terminal status never changes status again, and every
reachable task's timestamps satisfy `created_at ≤ started_at ≤
completed_at` wherever they are set. -/
theorem task_status_monotonic (ops : List Op) (op : Op) (t u : Task)
    (ht : t ∈ (runOps ops).tasks)
    (hu : u ∈ (runOps (ops ++ [op])).tasks)
    (hid : u.id = t.id) :
    (isTerminal t.status = true → u.status = t.status) ∧ tsOrdered t := by
  have hwf := wf_runOps ops
  have hrw : runOps (ops ++ [op]) = applyOp (runOps ops) op := by
    simp [runOps, List.foldl_append]
  refine ⟨fun hterm => ?_, hwf.tsOk t ht⟩
  exact terminal_preserved (runOps ops) op hwf t u ht (hrw ▸ hu) hid hterm

/-- Witness for C7: the task of `wOps` after the worker has run it,
followed by one more worker iteration. -/
theorem task_status_monotonic_witness :
    (isTerminal wTaskAfter.status = true →
      wTaskAfter.status = wTaskAfter.status) ∧ tsOrdered wTaskAfter :=
  task_status_monotonic (wOps ++ [wOp]) wOp wTaskAfter wTaskAfter
    (by decide) (by decide) (by decide)

/-- C8: the scheduler's queue is strict FIFO with a single-flight
worker — after any operation sequence, the dequeue history followed by
the still-queued ids is exactly the enqueue history, so tasks are
started one at a time in exactly their enqueue order, with no loss and
no reordering. -/
theorem queue_fifo_no_loss (ops : List Op) :
    (runOps ops).processed ++ (runOps ops).queue = (runOps ops).enqueued :=
  (wf_runOps ops).fifo

end AutoEngine
